import Mathlib

/-!
Verification development for the portfolio RAG pipeline
(`portfolio/rag_service.py`, `portfolio/tasks.py`,
`portfolio/management/commands/process_rag_async.py`,
`portfolio/management/commands/process_project_rag.py`,
`portfolio/views.py`).

Text is modelled as `List Char`; Python string slices become `drop`/`take`,
`str.rfind` becomes `pyRfind`, and `str.strip()` becomes `pyStrip`
(whitespace set approximated by `Char.isWhitespace`, which agrees with
Python on the ASCII whitespace occurring in this code base).
-/

set_option maxRecDepth 8000

namespace PortfolioRAG

/-- Index of the last occurrence of `c` in `l` (index relative to `l`),
`none` if `c` does not occur.  Helper implementing the semantics of
Python `str.rfind` on a slice. -/
def lastIdxOf (c : Char) : List Char → Option Nat
  | [] => none
  | x :: xs =>
    match lastIdxOf c xs with
    | some j => some (j + 1)
    | none => if x = c then some 0 else none

/-- Python `text.rfind(c, start, stop)`: highest index `i` with
`start ≤ i < stop` and `text[i] = c`, or `-1` if there is none.
Out-of-range positions are clamped exactly as Python slicing does. -/
def pyRfind (text : List Char) (c : Char) (start stop : Nat) : Int :=
  match lastIdxOf c ((text.drop start).take (stop - start)) with
  | some j => ((start + j : Nat) : Int)
  | none => -1

/-- Python `s.strip()`: remove leading and trailing whitespace. -/
def pyStrip (l : List Char) : List Char :=
  ((l.dropWhile Char.isWhitespace).reverse.dropWhile Char.isWhitespace).reverse

/-- End position of the chunk starting at `start`, as computed by the body of
`ProjectRAGService.chunk_text` (rag_service.py lines 137-149):
candidate end `start + chunk_size`; if that falls strictly inside the text,
prefer the last `'.'` found in `[start, end)` when it lies strictly past
`start + chunk_size // 2` (cut just after the dot), else the last `' '`
strictly past that midpoint (cut at the space), else keep `start + chunk_size`. -/
def chunk_end (text : List Char) (chunk_size start : Nat) : Nat :=
  let e0 := start + chunk_size
  if e0 < text.length then
    let sentence_end := pyRfind text '.' start e0
    if ((start + chunk_size / 2 : Nat) : Int) < sentence_end then
      sentence_end.toNat + 1
    else
      let word_end := pyRfind text ' ' start e0
      if ((start + chunk_size / 2 : Nat) : Int) < word_end then
        word_end.toNat
      else e0
  else e0

/-- The `while start < len(text)` loop of `chunk_text`
(rag_service.py lines 136-161).  Each iteration extracts
`text[start:end].strip()`, keeps it when nonempty, and advances
`start` to `max(start + 1, end - overlap)`.  The loop is embedded with
explicit fuel (structural recursion); `text.length` units of fuel are
always sufficient because `start` strictly increases each iteration —
this adequacy is certified by the theorem settling claim C3 via
`chunkLoopSteps` below. -/
def chunkLoop (text : List Char) (chunk_size overlap : Nat) :
    Nat → Nat → List (List Char)
  | 0, _ => []
  | fuel + 1, start =>
    if start < text.length then
      let e := chunk_end text chunk_size start
      let chunk := pyStrip ((text.drop start).take (e - start))
      let rest := chunkLoop text chunk_size overlap fuel (max (start + 1) (e - overlap))
      if chunk = [] then rest else chunk :: rest
    else []

/-- `ProjectRAGService.chunk_text(text, chunk_size=1000, overlap=200)`
(rag_service.py lines 118-162).  The source's default arguments are
supplied explicitly at call sites. -/
def chunk_text (text : List Char) (chunk_size overlap : Nat) :
    List (List Char) :=
  if text = [] then [] else chunkLoop text chunk_size overlap text.length 0

/-- Step-counting variant of the `chunk_text` loop: returns `none` when the
given iteration budget is exhausted before the loop condition
`start < len(text)` becomes false.  Used to state that the source loop
terminates within `len(text)` iterations. -/
def chunkLoopSteps (text : List Char) (chunk_size overlap : Nat) :
    Nat → Nat → Option (List (List Char))
  | 0, start => if start < text.length then none else some []
  | fuel + 1, start =>
    if start < text.length then
      let e := chunk_end text chunk_size start
      let chunk := pyStrip ((text.drop start).take (e - start))
      (chunkLoopSteps text chunk_size overlap fuel (max (start + 1) (e - overlap))).map
        (fun rest => if chunk = [] then rest else chunk :: rest)
    else some []

/-! ### Declarative chunk-boundary selection, following the spec's wording

The spec describes the boundary search declaratively ("the last
sentence-terminator at or after the chunk's midpoint").  The following
definitions are modelled from those words; the refinement theorems compare
them with the backward-scanning `pyRfind` used by the code. -/

/-- Modelled from the spec (amended reading): position of the last
occurrence of character `c` strictly after `mid` and before `e0`. -/
def lastBoundaryAfter (text : List Char) (c : Char) (mid e0 : Nat) :
    Option Nat :=
  ((List.range e0).filter (fun j => decide (mid < j ∧ text[j]? = some c))).max?

/-- Modelled from claim C1 as stated: position of the last occurrence of
character `c` at or after `mid` and before `e0`. -/
def lastBoundaryAtOrAfter (text : List Char) (c : Char) (mid e0 : Nat) :
    Option Nat :=
  ((List.range e0).filter (fun j => decide (mid ≤ j ∧ text[j]? = some c))).max?

/-- Modelled from claim C1 as stated: position of the last whitespace
character at or after `mid` and before `e0`. -/
def lastWhitespaceAtOrAfter (text : List Char) (mid e0 : Nat) : Option Nat :=
  ((List.range e0).filter
    (fun j => decide (mid ≤ j) && ((text[j]?.map Char.isWhitespace).getD false))).max?

/-- Chunk-end selection exactly as claim C1 states it: candidate boundary
`start + chunk_size`; if strictly inside the text, cut at the last
sentence terminator at or after the midpoint (keeping the dot), else at
the last whitespace at or after the midpoint, else at `chunk_size`. -/
def chunk_end_claim (text : List Char) (chunk_size start : Nat) : Nat :=
  let e0 := start + chunk_size
  let mid := start + chunk_size / 2
  if e0 < text.length then
    match lastBoundaryAtOrAfter text '.' mid e0 with
    | some s => s + 1
    | none =>
      match lastWhitespaceAtOrAfter text mid e0 with
      | some w => w
      | none => e0
  else e0

/-- Chunk-end selection as in the amended claim C1: the cut positions must
lie strictly after the midpoint `start + chunk_size / 2`, and the
fallback boundary character is the space character only. -/
def chunk_end_amended (text : List Char) (chunk_size start : Nat) : Nat :=
  let e0 := start + chunk_size
  let mid := start + chunk_size / 2
  if e0 < text.length then
    match lastBoundaryAfter text '.' mid e0 with
    | some s => s + 1
    | none =>
      match lastBoundaryAfter text ' ' mid e0 with
      | some w => w
      | none => e0
  else e0

/-- The `chunk_text` loop with the boundary selection of claim C1 as
stated. -/
def chunkLoopClaim (text : List Char) (chunk_size overlap : Nat) :
    Nat → Nat → List (List Char)
  | 0, _ => []
  | fuel + 1, start =>
    if start < text.length then
      let e := chunk_end_claim text chunk_size start
      let chunk := pyStrip ((text.drop start).take (e - start))
      let rest := chunkLoopClaim text chunk_size overlap fuel (max (start + 1) (e - overlap))
      if chunk = [] then rest else chunk :: rest
    else []

/-- The `chunk_text` loop with the boundary selection of the amended
claim C1. -/
def chunkLoopAmended (text : List Char) (chunk_size overlap : Nat) :
    Nat → Nat → List (List Char)
  | 0, _ => []
  | fuel + 1, start =>
    if start < text.length then
      let e := chunk_end_amended text chunk_size start
      let chunk := pyStrip ((text.drop start).take (e - start))
      let rest := chunkLoopAmended text chunk_size overlap fuel (max (start + 1) (e - overlap))
      if chunk = [] then rest else chunk :: rest
    else []

/-- `chunk_text` as described by claim C1 verbatim. -/
def chunk_text_claim (text : List Char) (chunk_size overlap : Nat) :
    List (List Char) :=
  if text = [] then [] else chunkLoopClaim text chunk_size overlap text.length 0

/-- `chunk_text` as described by the amended claim C1. -/
def chunk_text_amended (text : List Char) (chunk_size overlap : Nat) :
    List (List Char) :=
  if text = [] then [] else chunkLoopAmended text chunk_size overlap text.length 0

/-! ### Characterisation of the backward search -/

lemma lastIdxOf_eq_none {c : Char} {l : List Char}
    (h : lastIdxOf c l = none) : ∀ k : Nat, l[k]? ≠ some c := by
  induction l with
  | nil => intro k; simp
  | cons x xs ih =>
    intro k
    unfold lastIdxOf at h
    cases hxs : lastIdxOf c xs with
    | some j => rw [hxs] at h; simp at h
    | none =>
      rw [hxs] at h
      by_cases hx : x = c
      · simp [hx] at h
      · cases k with
        | zero => simpa using hx
        | succ k => simpa using ih hxs k

lemma lastIdxOf_eq_some {c : Char} {l : List Char} {j : Nat}
    (h : lastIdxOf c l = some j) :
    l[j]? = some c ∧ ∀ k, j < k → l[k]? ≠ some c := by
  induction l generalizing j with
  | nil => simp [lastIdxOf] at h
  | cons x xs ih =>
    unfold lastIdxOf at h
    cases hxs : lastIdxOf c xs with
    | some j2 =>
      rw [hxs] at h
      simp only [Option.some.injEq] at h
      subst h
      obtain ⟨h1, h2⟩ := ih hxs
      refine ⟨by simpa using h1, ?_⟩
      intro k hk
      cases k with
      | zero => omega
      | succ k => simpa using h2 k (by omega)
    | none =>
      rw [hxs] at h
      by_cases hx : x = c
      · rw [if_pos hx] at h
        simp only [Option.some.injEq] at h
        subst h
        refine ⟨by simpa using hx, ?_⟩
        intro k hk
        cases k with
        | zero => omega
        | succ k => simpa using lastIdxOf_eq_none hxs k
      · rw [if_neg hx] at h
        simp at h

lemma window_getElem (text : List Char) (s n k : Nat) :
    ((text.drop s).take n)[k]? = if k < n then text[s + k]? else none := by
  by_cases h : k < n
  · rw [if_pos h, List.getElem?_take_of_lt h, List.getElem?_drop]
  · rw [if_neg h]
    apply List.getElem?_eq_none_iff.2
    exact le_trans (List.length_take_le n _) (by omega)

/-- `pyRfind` either reports no occurrence in `[start, stop)`, or returns
the greatest occurrence position in that range. -/
lemma pyRfind_spec (text : List Char) (c : Char) (start stop : Nat) :
    (pyRfind text c start stop = -1 ∧
      ∀ j, start ≤ j → j < stop → text[j]? ≠ some c) ∨
    (∃ r : Nat, pyRfind text c start stop = (r : Int) ∧ start ≤ r ∧ r < stop ∧
      text[r]? = some c ∧ ∀ j, r < j → j < stop → text[j]? ≠ some c) := by
  unfold pyRfind
  cases hw : lastIdxOf c ((text.drop start).take (stop - start)) with
  | none =>
    left
    refine ⟨rfl, ?_⟩
    intro j h1 h2 hc
    have hk := lastIdxOf_eq_none hw (j - start)
    rw [window_getElem, if_pos (by omega)] at hk
    have he : start + (j - start) = j := by omega
    rw [he] at hk
    exact hk hc
  | some j =>
    right
    obtain ⟨h1, h2⟩ := lastIdxOf_eq_some hw
    rw [window_getElem] at h1
    by_cases hj : j < stop - start
    · rw [if_pos hj] at h1
      refine ⟨start + j, rfl, by omega, by omega, h1, ?_⟩
      intro m hm1 hm2 hc
      have hk := h2 (m - start) (by omega)
      rw [window_getElem, if_pos (by omega)] at hk
      have he : start + (m - start) = m := by omega
      rw [he] at hk
      exact hk hc
    · rw [if_neg hj] at h1
      exact absurd h1 (by simp)

lemma foldl_max_eq {a : Nat} : ∀ (xs : List Nat) (x : Nat),
    (x = a ∨ a ∈ xs) → x ≤ a → (∀ b ∈ xs, b ≤ a) → xs.foldl max x = a := by
  intro xs
  induction xs with
  | nil =>
    intro x h1 _ _
    simpa using h1.resolve_right (by simp)
  | cons y ys ih =>
    intro x h1 hx hb
    simp only [List.foldl_cons]
    apply ih
    · rcases h1 with h | h
      · subst h
        left
        exact Nat.max_eq_left (hb y (by simp))
      · rcases List.mem_cons.1 h with h | h
        · subst h
          left
          exact Nat.max_eq_right hx
        · right; exact h
    · exact Nat.max_le.2 ⟨hx, hb y (by simp)⟩
    · intro b hbm; exact hb b (by simp [hbm])

lemma nat_max_eq_some {l : List Nat} {a : Nat} (ha : a ∈ l)
    (hub : ∀ b ∈ l, b ≤ a) : l.max? = some a := by
  cases l with
  | nil => simp at ha
  | cons x xs =>
    have : (x :: xs).max? = some (xs.foldl max x) := by simp [List.max?]
    rw [this]
    congr 1
    apply foldl_max_eq xs x ?_ (hub x (by simp)) (fun b hb => hub b (by simp [hb]))
    rcases List.mem_cons.1 ha with h | h
    · left; exact h.symm
    · right; exact h

/-- The declarative "last occurrence of `c` strictly after the midpoint"
agrees with what the code computes with `rfind` followed by the strict
midpoint test. -/
lemma lastBoundaryAfter_eq_pyRfind (text : List Char) (c : Char)
    (start mid e0 : Nat) (hm : start ≤ mid) :
    lastBoundaryAfter text c mid e0 =
      if (mid : Int) < pyRfind text c start e0 then
        some (pyRfind text c start e0).toNat
      else none := by
  rcases pyRfind_spec text c start e0 with ⟨h1, h2⟩ | ⟨r, h1, hsr, hre, hrc, hmax⟩
  · rw [h1, if_neg (by omega)]
    unfold lastBoundaryAfter
    rw [List.filter_eq_nil_iff.2 ?_]
    · rfl
    intro j hj
    rw [List.mem_range] at hj
    simp only [decide_eq_true_eq]
    rintro ⟨hj2, hj3⟩
    exact h2 j (by omega) hj hj3
  · rw [h1]
    by_cases hcond : (mid : Int) < (r : Int)
    · rw [if_pos hcond]
      have hmr : mid < r := by exact_mod_cast hcond
      have htn : ((r : Int)).toNat = r := Int.toNat_ofNat r
      rw [htn]
      apply nat_max_eq_some
      · refine List.mem_filter.2 ⟨List.mem_range.2 hre, ?_⟩
        simp only [decide_eq_true_eq]
        exact ⟨hmr, hrc⟩
      · intro b hb
        obtain ⟨hb1, hb2⟩ := List.mem_filter.1 hb
        rw [List.mem_range] at hb1
        simp only [decide_eq_true_eq] at hb2
        by_contra hbr
        exact hmax b (by omega) hb1 hb2.2
    · rw [if_neg hcond]
      have hrm : r ≤ mid := by omega
      unfold lastBoundaryAfter
      rw [List.filter_eq_nil_iff.2 ?_]
      · rfl
      intro j hj
      rw [List.mem_range] at hj
      simp only [decide_eq_true_eq]
      rintro ⟨hj2, hj3⟩
      exact hmax j (by omega) hj hj3

lemma chunk_end_eq_amended (text : List Char) (cs start : Nat) :
    chunk_end text cs start = chunk_end_amended text cs start := by
  simp only [chunk_end, chunk_end_amended]
  rw [lastBoundaryAfter_eq_pyRfind text '.' start _ _ (Nat.le_add_right start (cs / 2)),
      lastBoundaryAfter_eq_pyRfind text ' ' start _ _ (Nat.le_add_right start (cs / 2))]
  by_cases h0 : start + cs < text.length
  · rw [if_pos h0, if_pos h0]
    by_cases h1 : ((start + cs / 2 : Nat) : Int) < pyRfind text '.' start (start + cs)
    · rw [if_pos h1, if_pos h1]
    · rw [if_neg h1, if_neg h1]
      by_cases h2 : ((start + cs / 2 : Nat) : Int) < pyRfind text ' ' start (start + cs)
      · rw [if_pos h2, if_pos h2]
      · rw [if_neg h2, if_neg h2]
  · rw [if_neg h0, if_neg h0]

lemma chunkLoop_eq_amended (text : List Char) (cs ov : Nat) :
    ∀ fuel start, chunkLoop text cs ov fuel start =
      chunkLoopAmended text cs ov fuel start := by
  intro fuel
  induction fuel with
  | zero => intro start; rfl
  | succ f ih =>
    intro start
    simp only [chunkLoop, chunkLoopAmended, chunk_end_eq_amended, ih]

/-! ### Termination of the chunking loop -/

/-- With at least `text.length - start` units of fuel the step-counting
loop never runs out: `start` advances by at least one per iteration. -/
lemma chunkLoopSteps_adequate (text : List Char) (cs ov : Nat) :
    ∀ fuel start, text.length - start ≤ fuel →
      chunkLoopSteps text cs ov fuel start =
        some (chunkLoop text cs ov fuel start) := by
  intro fuel
  induction fuel with
  | zero =>
    intro start h
    simp only [chunkLoopSteps, chunkLoop]
    rw [if_neg (by omega)]
  | succ f ih =>
    intro start h
    by_cases hs : start < text.length
    · simp only [chunkLoopSteps, chunkLoop, if_pos hs]
      rw [ih (max (start + 1) (chunk_end text cs start - ov))
        (by have := Nat.le_max_left (start + 1) (chunk_end text cs start - ov); omega)]
      rfl
    · simp only [chunkLoopSteps, chunkLoop, if_neg hs]

/-! ### Bounds on the chunk end and the produced chunks -/

lemma chunk_end_bounds (text : List Char) (cs start : Nat) :
    start ≤ chunk_end text cs start ∧ chunk_end text cs start ≤ start + cs := by
  simp only [chunk_end]
  by_cases h0 : start + cs < text.length
  · rw [if_pos h0]
    rcases pyRfind_spec text '.' start (start + cs) with ⟨h1, _⟩ | ⟨r, h1, hsr, hre, _, _⟩
    · rw [h1, if_neg (by omega)]
      rcases pyRfind_spec text ' ' start (start + cs) with ⟨h2, _⟩ | ⟨w, h2, hsw, hwe, _, _⟩
      · rw [h2, if_neg (by omega)]
        omega
      · rw [h2]
        by_cases hc : ((start + cs / 2 : Nat) : Int) < (w : Int)
        · rw [if_pos hc]
          have : start + cs / 2 < w := by exact_mod_cast hc
          rw [Int.toNat_ofNat]
          omega
        · rw [if_neg hc]; omega
    · rw [h1]
      by_cases hc : ((start + cs / 2 : Nat) : Int) < (r : Int)
      · rw [if_pos hc]
        have : start + cs / 2 < r := by exact_mod_cast hc
        rw [Int.toNat_ofNat]
        omega
      · rw [if_neg hc]
        rcases pyRfind_spec text ' ' start (start + cs) with ⟨h2, _⟩ | ⟨w, h2, hsw, hwe, _, _⟩
        · rw [h2, if_neg (by omega)]; omega
        · rw [h2]
          by_cases hc2 : ((start + cs / 2 : Nat) : Int) < (w : Int)
          · rw [if_pos hc2]
            have : start + cs / 2 < w := by exact_mod_cast hc2
            rw [Int.toNat_ofNat]
            omega
          · rw [if_neg hc2]; omega
  · rw [if_neg h0]; omega

lemma dropWhile_dropWhile (p : Char → Bool) (l : List Char) :
    (l.dropWhile p).dropWhile p = l.dropWhile p := by
  induction l with
  | nil => rfl
  | cons x xs ih =>
    by_cases hx : p x
    · simp [List.dropWhile_cons, hx, ih]
    · simp [List.dropWhile_cons, hx]

lemma length_dropWhile_le (p : Char → Bool) (l : List Char) :
    (l.dropWhile p).length ≤ l.length := by
  induction l with
  | nil => simp
  | cons x xs ih =>
    by_cases hx : p x
    · rw [List.dropWhile_cons, if_pos hx]
      simp only [List.length_cons]
      omega
    · rw [List.dropWhile_cons, if_neg hx]

lemma dropWhile_of_take {p : Char → Bool} {l : List Char}
    (h : l.dropWhile p = l) (n : Nat) : (l.take n).dropWhile p = l.take n := by
  cases l with
  | nil => simp
  | cons x xs =>
    have hx : ¬ p x = true := by
      intro hpx
      rw [List.dropWhile_cons, if_pos hpx] at h
      have h1 := length_dropWhile_le p xs
      have h2 : (xs.dropWhile p).length = (x :: xs).length := by rw [h]
      simp only [List.length_cons] at h2
      omega
    cases n with
    | zero => simp
    | succ m =>
      simp only [List.take_succ_cons, List.dropWhile_cons, if_neg hx]

lemma strip_mid (l : List Char) :
    pyStrip l ++
      ((l.dropWhile Char.isWhitespace).reverse.takeWhile Char.isWhitespace).reverse
      = l.dropWhile Char.isWhitespace := by
  unfold pyStrip
  rw [← List.reverse_append, List.takeWhile_append_dropWhile, List.reverse_reverse]

lemma pyStrip_infix (l : List Char) : ∃ s t, s ++ pyStrip l ++ t = l := by
  refine ⟨l.takeWhile Char.isWhitespace,
    ((l.dropWhile Char.isWhitespace).reverse.takeWhile Char.isWhitespace).reverse, ?_⟩
  rw [List.append_assoc, strip_mid, List.takeWhile_append_dropWhile]

lemma pyStrip_length_le (l : List Char) : (pyStrip l).length ≤ l.length := by
  obtain ⟨s, t, h⟩ := pyStrip_infix l
  have h2 := congrArg List.length h
  simp only [List.length_append] at h2
  omega

lemma pyStrip_take (l : List Char) :
    (l.dropWhile Char.isWhitespace).take (pyStrip l).length = pyStrip l := by
  conv_lhs => rw [← strip_mid l]
  exact List.take_left _ _

lemma pyStrip_dropWhile (l : List Char) :
    (pyStrip l).dropWhile Char.isWhitespace = pyStrip l := by
  have hA := dropWhile_dropWhile Char.isWhitespace l
  have h := dropWhile_of_take hA (pyStrip l).length
  rwa [pyStrip_take] at h

/-- Stripping is idempotent: a chunk produced by `pyStrip` is already
trimmed. -/
lemma pyStrip_idem (l : List Char) : pyStrip (pyStrip l) = pyStrip l := by
  have h0 : pyStrip (pyStrip l) =
      (((pyStrip l).dropWhile Char.isWhitespace).reverse.dropWhile
        Char.isWhitespace).reverse := rfl
  rw [h0, pyStrip_dropWhile]
  have h2 : (pyStrip l).reverse =
      (l.dropWhile Char.isWhitespace).reverse.dropWhile Char.isWhitespace := by
    unfold pyStrip
    rw [List.reverse_reverse]
  rw [h2, dropWhile_dropWhile]
  rfl

/-- Every chunk kept by the loop is the stripped content of a window
`text[s : e]` with `e ≤ s + chunk_size`. -/
lemma chunkLoop_mem (text : List Char) (cs ov : Nat) :
    ∀ fuel start c, c ∈ chunkLoop text cs ov fuel start →
      ∃ s e, e ≤ s + cs ∧ c = pyStrip ((text.drop s).take (e - s)) := by
  intro fuel
  induction fuel with
  | zero => intro start c hc; simp [chunkLoop] at hc
  | succ f ih =>
    intro start c hc
    by_cases hs : start < text.length
    · simp only [chunkLoop, if_pos hs] at hc
      by_cases hemp :
          pyStrip ((text.drop start).take (chunk_end text cs start - start)) = []
      · rw [if_pos hemp] at hc
        exact ih _ c hc
      · rw [if_neg hemp] at hc
        rcases List.mem_cons.1 hc with h | h
        · exact ⟨start, chunk_end text cs start, (chunk_end_bounds text cs start).2, h⟩
        · exact ih _ c h
    · simp [chunkLoop, hs] at hc

/-! ### Evaluation of `chunk_text` on uniform 2500-character input -/

lemma lastIdxOf_replicate {c a : Char} (h : c ≠ a) :
    ∀ n, lastIdxOf c (List.replicate n a) = none := by
  intro n
  induction n with
  | zero => rfl
  | succ m ih =>
    rw [List.replicate_succ]
    unfold lastIdxOf
    rw [ih, if_neg (fun he => h he.symm)]

lemma pyRfind_replicate {c a : Char} (h : c ≠ a) (n start stop : Nat) :
    pyRfind (List.replicate n a) c start stop = -1 := by
  unfold pyRfind
  rw [List.drop_replicate, List.take_replicate, lastIdxOf_replicate h]

lemma dropWhile_replicate {p : Char → Bool} {a : Char} (h : ¬ p a = true)
    (n : Nat) : (List.replicate n a).dropWhile p = List.replicate n a := by
  cases n with
  | zero => rfl
  | succ m => rw [List.replicate_succ, List.dropWhile_cons, if_neg h]

lemma pyStrip_replicate (n : Nat) :
    pyStrip (List.replicate n 'a') = List.replicate n 'a' := by
  unfold pyStrip
  rw [dropWhile_replicate (by decide), List.reverse_replicate,
    dropWhile_replicate (by decide), List.reverse_replicate]

lemma chunk_end_replicate (n cs start : Nat) :
    chunk_end (List.replicate n 'a') cs start = start + cs := by
  simp only [chunk_end]
  rw [pyRfind_replicate (by decide), pyRfind_replicate (by decide)]
  have h1 : ¬ ((start + cs / 2 : Nat) : Int) < -1 := by omega
  rw [if_neg h1, if_neg h1, ite_self]

lemma chunkLoop_replicate_succ {n cs start : Nat} (ov fuel : Nat)
    (h : start < n) (hcs : 0 < cs) :
    chunkLoop (List.replicate n 'a') cs ov (fuel + 1) start =
      List.replicate (min cs (n - start)) 'a' ::
        chunkLoop (List.replicate n 'a') cs ov fuel
          (max (start + 1) (start + cs - ov)) := by
  simp only [chunkLoop, List.length_replicate, if_pos h, chunk_end_replicate,
    List.drop_replicate, List.take_replicate, pyStrip_replicate]
  have h2 : start + cs - start = cs := by omega
  rw [h2]
  rw [if_neg (by rw [List.replicate_eq_nil_iff]; omega)]

lemma chunkLoop_exit (text : List Char) (cs ov fuel start : Nat)
    (h : ¬ start < text.length) : chunkLoop text cs ov fuel start = [] := by
  cases fuel with
  | zero => rfl
  | succ f => simp [chunkLoop, h]

/-- Concrete evaluation of the chunker on 2500 identical characters with
the source's default parameters: the overlap makes a fourth, 100-character
chunk out of the tail. -/
lemma chunk_text_replicate_2500 :
    chunk_text (List.replicate 2500 'a') 1000 200 =
      [List.replicate 1000 'a', List.replicate 1000 'a',
       List.replicate 900 'a', List.replicate 100 'a'] := by
  unfold chunk_text
  rw [if_neg (by rw [List.replicate_eq_nil_iff]; omega), List.length_replicate]
  rw [show (2500 : Nat) = 2499 + 1 from rfl,
    chunkLoop_replicate_succ 200 2499 (by omega) (by omega)]
  norm_num
  rw [show (2499 : Nat) = 2498 + 1 from rfl,
    chunkLoop_replicate_succ 200 2498 (by omega) (by omega)]
  norm_num
  rw [show (2498 : Nat) = 2497 + 1 from rfl,
    chunkLoop_replicate_succ 200 2497 (by omega) (by omega)]
  norm_num
  rw [show (2497 : Nat) = 2496 + 1 from rfl,
    chunkLoop_replicate_succ 200 2496 (by omega) (by omega)]
  norm_num
  rw [chunkLoop_exit _ _ _ _ _ (by rw [List.length_replicate]; omega)]

/-! ### The processing record and the async processing pipeline

`ProjectRAG` models the Django model of the same name (models.py lines
66-102).  The embeddings payload type is kept abstract (`E`): no claim
inspects the numeric vectors, only their presence and identity, so the
floating-point content is out of scope.  `processing_error = none` models
the NULL column value. -/

inductive Status
  | pending
  | fetching
  | chunking
  | embedding
  | completed
  | failed
deriving DecidableEq

structure ProjectRAG (E : Type) where
  repo_content : List Char
  embeddings_data : Option E
  is_processed : Bool
  processing_error : Option String
  processing_status : Status
  progress_percentage : Nat
deriving DecidableEq

/-- Outcome of one processing run: the final record, the sequence of
record states persisted by each `save()` call during the run, and whether
the embedding step (the external Embedder) was invoked. -/
structure RunResult (E : Type) where
  record : ProjectRAG E
  saves : List (ProjectRAG E)
  embedCalled : Bool
deriving DecidableEq

def fetchFailedMsg : String := "Failed to fetch repository content"

def noChunksMsg : String := "No content chunks generated"

def embedFailedMsg : String := "Failed to create embeddings"

/-- The per-project processing pipeline shared by
`Command.process_project_async` (process_rag_async.py lines 61-170) and
`process_project_rag_async` (tasks.py lines 39-112): set `fetching`/10,
fetch; on falsy content fail; store content, set `chunking`/30; chunk with
the default parameters (1000, 200); on no chunks fail; set `embedding`/50;
embed (modelled by the caller-supplied `embed`, `none` = failure or empty
result); on failure fail, otherwise store the payload and set
`completed`/100 with `is_processed = True`.  Failure branches record the
error message and set `failed` without touching the progress value. -/
def process_project_async (E : Type) (r0 : ProjectRAG E)
    (fetched : Option (List Char))
    (embed : List (List Char) → Option E) : RunResult E :=
  let r1 : ProjectRAG E :=
    { r0 with processing_status := Status.fetching, progress_percentage := 10,
              processing_error := none }
  match fetched with
  | none =>
    let r2 := { r1 with processing_error := some fetchFailedMsg,
                        processing_status := Status.failed }
    ⟨r2, [r1, r2], false⟩
  | some content =>
    if content = [] then
      let r2 := { r1 with processing_error := some fetchFailedMsg,
                          processing_status := Status.failed }
      ⟨r2, [r1, r2], false⟩
    else
      let r3 := { r1 with repo_content := content,
                          processing_status := Status.chunking,
                          progress_percentage := 30 }
      let chunks := chunk_text content 1000 200
      if chunks = [] then
        let r4 := { r3 with processing_error := some noChunksMsg,
                            processing_status := Status.failed }
        ⟨r4, [r1, r3, r4], false⟩
      else
        let r5 := { r3 with processing_status := Status.embedding,
                            progress_percentage := 50 }
        match embed chunks with
        | none =>
          let r6 := { r5 with processing_error := some embedFailedMsg,
                              processing_status := Status.failed }
          ⟨r6, [r1, r3, r5, r6], true⟩
        | some d =>
          let r7 := { r5 with embeddings_data := some d,
                              is_processed := true,
                              processing_status := Status.completed,
                              progress_percentage := 100 }
          ⟨r7, [r1, r3, r5, r7], true⟩

/-- `process_project_rag_async` (tasks.py lines 12-43): skip when the
record is already processed and `force` is not set, otherwise run the
pipeline. -/
def process_project_rag_async (E : Type) (r0 : ProjectRAG E) (force : Bool)
    (fetched : Option (List Char))
    (embed : List (List Char) → Option E) : Option (RunResult E) :=
  if r0.is_processed && !force then none
  else some (process_project_async E r0 fetched embed)

/-- Reset applied to each failed record by `cleanup_failed_rag_tasks`
(tasks.py lines 166-171): back to `pending`, progress 0, error cleared.
The stored `repo_content` and `embeddings_data` are not touched. -/
def cleanupResetRecord (E : Type) (r : ProjectRAG E) : ProjectRAG E :=
  { r with processing_status := Status.pending, progress_percentage := 0,
           processing_error := none }

/-- `cleanup_failed_rag_tasks` (tasks.py lines 158-174): apply the reset
to exactly the records whose status is `failed`. -/
def cleanup_failed_rag_tasks (E : Type) (rags : List (ProjectRAG E)) :
    List (ProjectRAG E) :=
  rags.map (fun r =>
    if r.processing_status = Status.failed then cleanupResetRecord E r else r)

/-- The force-reprocess reset of `Command.process_project`
(process_project_rag.py lines 71-74): clears the processed flag and the
error, nothing else. -/
def force_reset_record (E : Type) (r : ProjectRAG E) : ProjectRAG E :=
  { r with is_processed := false, processing_error := none }

/-- Progress checkpoint discipline for one persisted record state. -/
def checkpointOk (E : Type) (r : ProjectRAG E) : Bool :=
  (match r.processing_status with
   | Status.fetching => r.progress_percentage == 10
   | Status.chunking => r.progress_percentage == 30
   | Status.embedding => r.progress_percentage == 50
   | Status.completed => r.progress_percentage == 100
   | _ => true)

/-- The persisted progress values never decrease along a run. -/
def progressMono (E : Type) : List (ProjectRAG E) → Bool
  | [] => true
  | [_] => true
  | a :: b :: rest =>
    (a.progress_percentage ≤ b.progress_percentage : Bool) &&
      progressMono E (b :: rest)

/-! ### The query path: `project_chatbot_ask` and `search_similar_chunks`

The embeddings payload stored for a completed record, as read back by the
view (views.py lines 335-358): the chunk texts and the embedding matrix.
Vector entries are abstracted to `Int` — no claim depends on the numeric
values of the floats, only on emptiness and identity of the lists. -/

structure EmbData where
  chunks : List String
  embeddings : List (List Int)
deriving DecidableEq

inductive AskStatus
  | success
  | error
deriving DecidableEq

/-- JSON reply of the view: the payload text, the status field, and a flag
recording whether the FAISS index was reconstructed and searched on this
request (instrumentation for "the Vector Index is not touched"). -/
structure AskResult where
  response : String
  status : AskStatus
  indexTouched : Bool
deriving DecidableEq

def noMessageMsg : String := "No message provided"

def stillProcessingMsg : String :=
  "The project repository is still being processed. Please try again later."

def dataUnavailableMsg : String :=
  "The project repository data is not available. Please contact the administrator."

def accessIssueMsg : String :=
  "Sorry, there was an issue accessing the project data. Please try again later."

def incompleteDataMsg : String :=
  "Sorry, the project data is incomplete. Please contact the administrator."

/-- The ASCII apostrophe, kept as a named character constant. -/
def apostrophe : String := String.singleton (Char.ofNat 39)

/-- The no-match reply of the view (views.py lines 365-369). -/
def couldntFindMsg (user_message project_title : String) : String :=
  "I couldn" ++ apostrophe ++ "t find relevant information about \"" ++
    user_message ++ "\" in the " ++ project_title ++
    " repository. Could you try rephrasing your question or ask about specific files, functions, or features?"

/-- `ProjectRAGService.search_similar_chunks` (rag_service.py lines
204-242).  The FAISS index is modelled as a function from a query
embedding and a result count to `(score, chunk index)` pairs;
`query_embedding = none` models the provider call raising, which the
source catches and converts to `[]`.  The guard clause and the
`idx < len(chunks)` filter are as in the source. -/
def search_similar_chunks (query : String)
    (index : Option (List Int → Nat → List (Int × Nat)))
    (chunks : List String) (top_k : Nat) (openai_client : Option Unit)
    (query_embedding : Option (List Int)) : List (String × Int) :=
  if query = "" then []
  else
    match index, openai_client with
    | some idx, some _ =>
      if chunks = [] then []
      else
        match query_embedding with
        | none => []
        | some q =>
          (idx q (min top_k chunks.length)).filterMap
            (fun p => if h : p.2 < chunks.length then
                some (chunks.get ⟨p.2, h⟩, p.1) else none)
    | _, _ => []

/-- `project_chatbot_ask` (views.py lines 271-388), with the RAG
dependencies available.  `record = none` models a missing `ProjectRAG`
row; `search` abstracts the index reconstruction plus
`search_similar_chunks` call, and `generate` abstracts
`generate_response_with_groq`; both are only invoked on the path that
touches the index. -/
def project_chatbot_ask (record : Option (ProjectRAG EmbData))
    (user_message project_title : String)
    (search : List String → List (String × Int))
    (generate : List String → String) : AskResult :=
  if user_message = "" then ⟨noMessageMsg, AskStatus.error, false⟩
  else
    match record with
    | none => ⟨dataUnavailableMsg, AskStatus.success, false⟩
    | some rag =>
      if rag.is_processed = false then
        ⟨stillProcessingMsg, AskStatus.success, false⟩
      else
        match rag.embeddings_data with
        | none => ⟨accessIssueMsg, AskStatus.success, false⟩
        | some ed =>
          if ed.chunks = [] ∨ ed.embeddings = [] then
            ⟨incompleteDataMsg, AskStatus.success, false⟩
          else
            let similar := search ed.chunks
            if similar = [] then
              ⟨couldntFindMsg user_message project_title, AskStatus.success, true⟩
            else
              ⟨generate (similar.map Prod.fst), AskStatus.success, true⟩

/-! ### Prompt construction of `generate_response_with_groq`
(rag_service.py lines 244-305) -/

structure ChatMsg where
  role : String
  content : String
deriving DecidableEq

/-- A history entry rendered as a role-labelled line. -/
def historyLine (msg : ChatMsg) : String :=
  (if msg.role = "user" then "User" else "Assistant") ++ ": " ++ msg.content

def recentConversationHeader : String := "\n\nRecent conversation:\n"

/-- The `history_context` string: empty for an empty history, otherwise
the header plus the last four turns, one line each. -/
def groqHistoryContext (chat_history : List ChatMsg) : String :=
  if chat_history = [] then ""
  else
    recentConversationHeader ++
      String.intercalate "\n"
        ((chat_history.drop (chat_history.length - 4)).map historyLine)

def promptPart1 : String :=
  "You are an AI assistant helping users understand the \""

def promptPart2 : String :=
  "\" project.\nUse the following code/documentation context to answer the user" ++
    apostrophe ++
    "s question accurately and helpfully.\n\nContext from the project repository:\n"

def promptPart3 : String := "\n\nUser Question: "

def promptPart4 : String :=
  "\n\nInstructions:\n- Keep responses CONCISE and to the point (2-3 sentences max)\n- Focus on the most important information\n- Use bullet points for lists when appropriate\n- If the context doesn" ++
    apostrophe ++
    "t contain enough information, say so briefly and suggest what might help"

/-- The full prompt assembled by `generate_response_with_groq`: the
context is the first three retrieved chunk texts joined by blank lines,
the history context is the last four turns. -/
def groqPrompt (query : String) (context_chunks : List String)
    (project_title : String) (chat_history : List ChatMsg) : String :=
  let context := String.intercalate "\n\n" (context_chunks.take 3)
  let history_context := groqHistoryContext chat_history
  promptPart1 ++ project_title ++ promptPart2 ++ context ++ history_context ++
    promptPart3 ++ query ++ promptPart4

def aiUnavailableMsg : String :=
  "Sorry, the AI service is not available at the moment."

def generationErrorMsg : String :=
  "Sorry, I encountered an error while generating a response. Please try again."

/-- `generate_response_with_groq`: missing client and provider failure
degrade to fixed fallback strings, otherwise the provider's completion
for `groqPrompt` is returned. -/
def generate_response_with_groq (groq_client : Option Unit)
    (provider : String → Option String) (query : String)
    (context_chunks : List String) (project_title : String)
    (chat_history : List ChatMsg) : String :=
  match groq_client with
  | none => aiUnavailableMsg
  | some _ =>
    match provider (groqPrompt query context_chunks project_title chat_history) with
    | none => generationErrorMsg
    | some r => r

/-- Truncating the history to its last four turns does not change the
rendered history context. -/
lemma groqHistoryContext_drop (h : List ChatMsg) :
    groqHistoryContext (h.drop (h.length - 4)) = groqHistoryContext h := by
  unfold groqHistoryContext
  by_cases hh : h = []
  · subst hh; rfl
  · rw [if_neg hh, if_neg ?_]
    · have hlen : (h.drop (h.length - 4)).length = h.length - (h.length - 4) :=
        List.length_drop _ _
      rw [show (h.drop (h.length - 4)).length - 4 = 0 by rw [hlen]; omega,
        List.drop_zero]
    · intro hcon
      apply hh
      have h2 := congrArg List.length hcon
      rw [List.length_drop] at h2
      simp only [List.length_nil] at h2
      have h3 : h.length = 0 := by omega
      exact List.length_eq_zero.1 h3

/-! ### Claim theorems -/

/-- Claim C1 (amended): for every input text, chunk_size and overlap,
`chunk_text` selects each chunk's end as follows: the candidate boundary
is `start + chunk_size`; if that falls strictly inside the text, it cuts
just after the last sentence terminator `'.'` strictly after the chunk's
midpoint `start + chunk_size / 2` if one exists, otherwise at the last
space character `' '` strictly after that midpoint if one exists,
otherwise exactly at `chunk_size`; the chunk is then trimmed and
discarded if empty. -/
theorem chunk_text_boundary_amended :
    ∀ (text : List Char) (chunk_size overlap : Nat),
      chunk_text text chunk_size overlap =
        chunk_text_amended text chunk_size overlap := by
  intro text cs ov
  unfold chunk_text chunk_text_amended
  rw [chunkLoop_eq_amended]

/-- Claim C1 counterexample: with the boundary described by the claim as
stated (last terminator at or after the midpoint), the input
"ab.cdefgh" with `chunk_size = 4`, `overlap = 0` would be cut at the dot
sitting exactly at the midpoint, giving chunks "ab.", "cdef", "gh";
the code requires the terminator strictly past the midpoint and instead
produces "ab.c", "defg", "h". -/
theorem chunk_text_boundary_counterexample :
    chunk_text ("ab.cdefgh".toList) 4 0 =
        ["ab.c".toList, "defg".toList, "h".toList] ∧
      chunk_text_claim ("ab.cdefgh".toList) 4 0 =
        ["ab.".toList, "cdef".toList, "gh".toList] ∧
      chunk_text ("ab.cdefgh".toList) 4 0 ≠
        chunk_text_claim ("ab.cdefgh".toList) 4 0 := by
  refine ⟨by decide, by decide, by decide⟩

/-- Claim C2 counterexample: a 2500-character input (2500 repetitions of
'a') chunked with `chunk_size = 1000`, `overlap = 200` produces four
chunks, not three: the overlap re-enters the text at position 2400 after
the third chunk reaches the end, yielding a final 100-character chunk. -/
theorem chunk_text_2500_counterexample :
    (List.replicate 2500 'a').length = 2500 ∧
      (chunk_text (List.replicate 2500 'a') 1000 200).length ≠ 3 := by
  refine ⟨by simp, ?_⟩
  rw [chunk_text_replicate_2500]
  simp

/-- Claim C2 (amended): for the 2500-character input consisting of a
repeated non-space, non-terminator character, `chunk_text` with
`chunk_size = 1000`, `overlap = 200` produces exactly 4 chunks
(of sizes 1000, 1000, 900, 100), each trimmed and nonempty, and the
first chunk starts at offset 0 of the input (it equals the input's
first 1000 characters). -/
theorem chunk_text_2500_amended :
    (chunk_text (List.replicate 2500 'a') 1000 200).length = 4 ∧
      (chunk_text (List.replicate 2500 'a') 1000 200).map List.length =
        [1000, 1000, 900, 100] ∧
      (chunk_text (List.replicate 2500 'a') 1000 200).map pyStrip =
        chunk_text (List.replicate 2500 'a') 1000 200 ∧
      (chunk_text (List.replicate 2500 'a') 1000 200).head? =
        some ((List.replicate 2500 'a').take 1000) := by
  simp only [chunk_text_replicate_2500]
  refine ⟨rfl, ?_, ?_, ?_⟩
  · simp only [List.map_cons, List.map_nil, List.length_replicate]
  · simp only [List.map_cons, List.map_nil, pyStrip_replicate]
  · rw [List.take_replicate]
    norm_num

/-- Claim C3: the `chunk_text` loop terminates for every finite input and
all parameter values (including `overlap ≥ chunk_size`): it finishes
within `len(text)` iterations because each iteration advances `start` to
`max(start + 1, end - overlap)`, which strictly increases `start`; and
the empty input produces zero chunks without error. -/
theorem chunk_text_terminates :
    ∀ (text : List Char) (chunk_size overlap : Nat),
      chunkLoopSteps text chunk_size overlap text.length 0 =
          some (chunk_text text chunk_size overlap) ∧
        chunk_text [] chunk_size overlap = [] ∧
        ∀ start : Nat,
          start < max (start + 1) (chunk_end text chunk_size start - overlap) := by
  intro text cs ov
  refine ⟨?_, rfl, ?_⟩
  · unfold chunk_text
    by_cases h : text = []
    · subst h; rfl
    · rw [if_neg h]
      exact chunkLoopSteps_adequate text cs ov text.length 0 (by omega)
  · intro start
    have := Nat.le_max_left (start + 1) (chunk_end text cs start - ov)
    omega

/-- Claim C9: every chunk returned by `chunk_text` is a whitespace-trimmed
contiguous substring of the input text whose length is at most
`chunk_size`: the cut position never exceeds `start + chunk_size` and
trimming only shortens. -/
theorem chunk_text_chunks_bounded :
    ∀ (text : List Char) (chunk_size overlap : Nat) (c : List Char),
      c ∈ chunk_text text chunk_size overlap →
      c.length ≤ chunk_size ∧ pyStrip c = c ∧ ∃ s t, s ++ c ++ t = text := by
  intro text cs ov c hc
  unfold chunk_text at hc
  by_cases hn : text = []
  · rw [if_pos hn] at hc; simp at hc
  · rw [if_neg hn] at hc
    obtain ⟨s, e, he, hceq⟩ := chunkLoop_mem text cs ov text.length 0 c hc
    subst hceq
    refine ⟨?_, pyStrip_idem _, ?_⟩
    · calc (pyStrip ((text.drop s).take (e - s))).length
          ≤ ((text.drop s).take (e - s)).length := pyStrip_length_le _
        _ ≤ e - s := List.length_take_le _ _
        _ ≤ cs := by omega
    · obtain ⟨a, b, hab⟩ := pyStrip_infix ((text.drop s).take (e - s))
      refine ⟨text.take s ++ a,
        b ++ (text.drop s).drop (e - s), ?_⟩
      have h2 : (text.drop s).take (e - s) ++ (text.drop s).drop (e - s) =
          text.drop s := List.take_append_drop _ _
      have h3 : text.take s ++ text.drop s = text := List.take_append_drop _ _
      conv_rhs => rw [← h3, ← h2, ← hab]
      simp only [List.append_assoc]

/-- Claim C9 witness: the input "ab" with `chunk_size = 5`, `overlap = 0`
produces the single chunk "ab", which satisfies the three conclusions. -/
theorem chunk_text_chunks_bounded_witness :
    ("ab".toList).length ≤ 5 ∧ pyStrip ("ab".toList) = "ab".toList ∧
      ∃ s t, s ++ "ab".toList ++ t = "ab".toList :=
  chunk_text_chunks_bounded ("ab".toList) 5 0 ("ab".toList) (by decide)

/-- A freshly created pending processing record over a trivial payload
type, as created by `get_or_create` with the source's defaults. -/
def pendingRecord : ProjectRAG Nat :=
  ⟨[], none, false, none, Status.pending, 0⟩

/-- Claim C4 counterexample: an empty fetched snapshot (content
yielding no chunks) is caught by the `if not repo_content` guard and
recorded as a fetch failure, not as the no-chunks failure the claim
names.  The Embedder is still never called. -/
theorem process_empty_snapshot_counterexample :
    chunk_text [] 1000 200 = [] ∧
      (process_project_async Nat pendingRecord (some [])
        (fun _ => some 0)).record.processing_status = Status.failed ∧
      (process_project_async Nat pendingRecord (some [])
        (fun _ => some 0)).record.processing_error = some fetchFailedMsg ∧
      (process_project_async Nat pendingRecord (some [])
        (fun _ => some 0)).record.processing_error ≠ some noChunksMsg ∧
      (process_project_async Nat pendingRecord (some [])
        (fun _ => some 0)).embedCalled = false := by
  refine ⟨rfl, rfl, rfl, by decide, rfl⟩

/-- Claim C4 (amended): if the fetched snapshot is nonempty but yields no
chunks, the run is marked failed with the 'No content chunks generated'
error and the Embedder is never called; a fetched snapshot that is empty
is instead recorded as 'Failed to fetch repository content' (also failed,
also without calling the Embedder). -/
theorem process_no_chunks_amended :
    ∀ (E : Type) (r0 : ProjectRAG E) (embed : List (List Char) → Option E)
      (content : List Char),
      content ≠ [] → chunk_text content 1000 200 = [] →
      (process_project_async E r0 (some content) embed).record.processing_status
          = Status.failed ∧
        (process_project_async E r0 (some content) embed).record.processing_error
          = some noChunksMsg ∧
        (process_project_async E r0 (some content) embed).embedCalled = false := by
  intro E r0 embed content hc hch
  simp only [process_project_async]
  rw [if_neg hc, if_pos hch]
  exact ⟨rfl, rfl, rfl⟩

/-- Claim C4 witness: a snapshot consisting of one space character is
nonempty, produces no chunks, and drives the pipeline into the
no-chunks failure without calling the Embedder. -/
theorem process_no_chunks_amended_witness :
    (process_project_async Nat pendingRecord (some [' '])
        (fun _ => some 0)).record.processing_status = Status.failed ∧
      (process_project_async Nat pendingRecord (some [' '])
        (fun _ => some 0)).record.processing_error = some noChunksMsg ∧
      (process_project_async Nat pendingRecord (some [' '])
        (fun _ => some 0)).embedCalled = false :=
  process_no_chunks_amended Nat pendingRecord (fun _ => some 0) [' ']
    (by decide) (by decide)

/-- Claim C5 counterexample: resetting a failed record via the cleanup
sweep sets it back to pending with progress 0 and no error, but the
stored repository snapshot and embeddings payload are retained, not
cleared as the claim states. -/
theorem cleanup_reset_counterexample :
    cleanup_failed_rag_tasks Nat
        [⟨['x'], some 7, false, some "err", Status.failed, 50⟩] =
      [⟨['x'], some 7, false, none, Status.pending, 0⟩] ∧
      (⟨['x'], some 7, false, none, Status.pending, 0⟩ :
        ProjectRAG Nat).repo_content ≠ [] ∧
      (⟨['x'], some 7, false, none, Status.pending, 0⟩ :
        ProjectRAG Nat).embeddings_data ≠ none := by
  refine ⟨by decide, by decide, by decide⟩

/-- Claim C5 (amended): explicitly resetting a failed record to pending
(the cleanup sweep) clears the prior error and the progress percentage
and nothing else — the stored snapshot and the stored chunks/embeddings
payload are retained until the next run overwrites them; the
force-reprocess path of the synchronous command clears only the
processed flag and the error, leaving snapshot, embeddings, progress and
status untouched. -/
theorem cleanup_reset_amended :
    ∀ (E : Type) (r : ProjectRAG E), r.processing_status = Status.failed →
      ((cleanupResetRecord E r).processing_status = Status.pending ∧
        (cleanupResetRecord E r).processing_error = none ∧
        (cleanupResetRecord E r).progress_percentage = 0 ∧
        (cleanupResetRecord E r).repo_content = r.repo_content ∧
        (cleanupResetRecord E r).embeddings_data = r.embeddings_data ∧
        (cleanupResetRecord E r).is_processed = r.is_processed) ∧
      cleanup_failed_rag_tasks E [r] = [cleanupResetRecord E r] ∧
      ((force_reset_record E r).processing_error = none ∧
        (force_reset_record E r).is_processed = false ∧
        (force_reset_record E r).repo_content = r.repo_content ∧
        (force_reset_record E r).embeddings_data = r.embeddings_data ∧
        (force_reset_record E r).progress_percentage = r.progress_percentage ∧
        (force_reset_record E r).processing_status = r.processing_status) := by
  intro E r h
  refine ⟨⟨rfl, rfl, rfl, rfl, rfl, rfl⟩, ?_, rfl, rfl, rfl, rfl, rfl, rfl⟩
  simp [cleanup_failed_rag_tasks, h]

/-- Claim C5 witness: the amended reset behaviour at a concrete failed
record. -/
theorem cleanup_reset_amended_witness :
    (cleanupResetRecord Nat
      ⟨['x'], some 7, false, some "e", Status.failed, 50⟩).processing_status =
      Status.pending :=
  (cleanup_reset_amended Nat
    ⟨['x'], some 7, false, some "e", Status.failed, 50⟩ (by decide)).1.1

/-- Claim C6: along one processing run the persisted record states carry
progress 10 on entering fetching, 30 on chunking, 50 on embedding and 100
on completion, the persisted progress values never decrease, and the
reset-to-pending of the cleanup sweep sets progress back to 0. -/
theorem progress_checkpoints :
    ∀ (E : Type) (r0 : ProjectRAG E) (fetched : Option (List Char))
      (embed : List (List Char) → Option E),
      progressMono E (process_project_async E r0 fetched embed).saves = true ∧
        (process_project_async E r0 fetched embed).saves.all
          (checkpointOk E) = true ∧
        ∀ r : ProjectRAG E, (cleanupResetRecord E r).progress_percentage = 0 ∧
          (cleanupResetRecord E r).processing_status = Status.pending := by
  intro E r0 fetched embed
  refine ⟨?_, ?_, fun r => ⟨rfl, rfl⟩⟩ <;>
  · cases fetched with
    | none => rfl
    | some content =>
      simp only [process_project_async]
      by_cases hc : content = []
      · rw [if_pos hc]; rfl
      · rw [if_neg hc]
        by_cases hch : chunk_text content 1000 200 = []
        · rw [if_pos hch]; rfl
        · rw [if_neg hch]
          cases hembed : embed (chunk_text content 1000 200) with
          | none => rfl
          | some d => rfl

/-- Claim C7 counterexample: the view gates queries on the `is_processed`
flag, not on `processing_status = completed`.  A record in the
`embedding` state with a stale `is_processed = True` — exactly the state
persisted mid-run when a previously completed project is reprocessed — is
served from the old stored data: the index is rebuilt and searched, and
the caller gets a generated answer, not the still-processing message. -/
theorem ask_not_completed_counterexample :
    (⟨['a'], some ⟨["c1"], [[1]]⟩, true, none, Status.embedding, 50⟩ :
        ProjectRAG EmbData) ∈
      (process_project_async EmbData
        ⟨[], some ⟨["c1"], [[1]]⟩, true, none, Status.completed, 100⟩
        (some ['a']) (fun _ => some ⟨["c1"], [[1]]⟩)).saves ∧
      (project_chatbot_ask
        (some ⟨['a'], some ⟨["c1"], [[1]]⟩, true, none, Status.embedding, 50⟩)
        "hi" "Proj" (fun _ => [("c1", 1)]) (fun _ => "answer")).response ≠
        stillProcessingMsg ∧
      (project_chatbot_ask
        (some ⟨['a'], some ⟨["c1"], [[1]]⟩, true, none, Status.embedding, 50⟩)
        "hi" "Proj" (fun _ => [("c1", 1)]) (fun _ => "answer")).indexTouched
        = true := by
  refine ⟨by decide, by decide, rfl⟩

/-- Claim C7 (amended): the still-processing guard is the `is_processed`
flag: whenever it is false (the case throughout a first, never-completed
run, including while embedding), the caller receives the deterministic
still-processing message with success status and the Vector Index is not
touched. -/
theorem ask_still_processing_amended :
    ∀ (record : ProjectRAG EmbData) (msg title : String)
      (search : List String → List (String × Int))
      (generate : List String → String),
      msg ≠ "" → record.is_processed = false →
      project_chatbot_ask (some record) msg title search generate =
        ⟨stillProcessingMsg, AskStatus.success, false⟩ := by
  intro record msg title search generate hm hp
  simp [project_chatbot_ask, hm, hp]

/-- Claim C7 witness: a first-run record mid-embedding gets the
still-processing reply and no index access. -/
theorem ask_still_processing_amended_witness :
    project_chatbot_ask
        (some ⟨[], none, false, none, Status.embedding, 50⟩) "hi" "Proj"
        (fun _ => []) (fun _ => "g") =
      ⟨stillProcessingMsg, AskStatus.success, false⟩ :=
  ask_still_processing_amended
    ⟨[], none, false, none, Status.embedding, 50⟩ "hi" "Proj"
    (fun _ => []) (fun _ => "g") (by decide) (by decide)

/-- Claim C8: the generated prompt is built from at most the top three
retrieved chunk texts and at most the last four chat turns: truncating
the retrieved list to three entries and the history to its last four
turns leaves the prompt unchanged. -/
theorem groq_prompt_bounded :
    ∀ (query : String) (context_chunks : List String) (title : String)
      (chat_history : List ChatMsg),
      groqPrompt query context_chunks title chat_history =
        groqPrompt query (context_chunks.take 3) title
          (chat_history.drop (chat_history.length - 4)) := by
  intro q cs t h
  unfold groqPrompt
  rw [List.take_take, groqHistoryContext_drop]
  norm_num

/-- Claim C10: `search_similar_chunks` never raises — an empty query,
missing index, empty chunk list, missing embedding client, or a provider
exception while embedding the query all yield the empty result list; the
view then replies with the couldn't-find message and success status, so a
query-time provider failure is indistinguishable from a no-match result
at the public interface. -/
theorem search_never_raises :
    ∀ (query : String) (index : Option (List Int → Nat → List (Int × Nat)))
      (chunks : List String) (top_k : Nat) (client : Option Unit)
      (qemb : Option (List Int)) (record : ProjectRAG EmbData)
      (msg title : String) (generate : List String → String),
      ((query = "" ∨ index = none ∨ chunks = [] ∨ client = none ∨ qemb = none) →
        search_similar_chunks query index chunks top_k client qemb = []) ∧
      (msg ≠ "" → record.is_processed = true →
        ∀ ed : EmbData, record.embeddings_data = some ed → ed.chunks ≠ [] →
          ed.embeddings ≠ [] →
          project_chatbot_ask (some record) msg title (fun _ => []) generate =
            ⟨couldntFindMsg msg title, AskStatus.success, true⟩) := by
  intro query index chunks top_k client qemb record msg title generate
  constructor
  · intro h
    rcases h with hq | hi | hc | hcl | he
    · subst hq; simp [search_similar_chunks]
    · subst hi
      by_cases hq : query = "" <;> simp [search_similar_chunks, hq]
    · subst hc
      by_cases hq : query = "" <;> rcases index with _ | idx <;>
        rcases client with _ | cl <;> simp [search_similar_chunks, hq]
    · subst hcl
      by_cases hq : query = "" <;> rcases index with _ | idx <;>
        simp [search_similar_chunks, hq]
    · subst he
      by_cases hq : query = "" <;> rcases index with _ | idx <;>
        rcases client with _ | cl <;> by_cases hc2 : chunks = [] <;>
        simp [search_similar_chunks, hq, hc2]
  · intro hm hp ed hed hch hemb
    simp [project_chatbot_ask, hm, hp, hed, hch, hemb]

/-- Claim C10 witness: the guard at an empty query, and the view's
couldn't-find reply when retrieval comes back empty on a processed
record. -/
theorem search_never_raises_witness :
    search_similar_chunks "" none [] 5 none none = [] ∧
      project_chatbot_ask
          (some ⟨[], some ⟨["c"], [[0]]⟩, true, none, Status.completed, 100⟩)
          "hi" "P" (fun _ => []) (fun _ => "g") =
        ⟨couldntFindMsg "hi" "P", AskStatus.success, true⟩ :=
  ⟨(search_never_raises "" none [] 5 none none
      ⟨[], some ⟨["c"], [[0]]⟩, true, none, Status.completed, 100⟩
      "hi" "P" (fun _ => "g")).1 (Or.inl rfl),
    (search_never_raises "" none [] 5 none none
      ⟨[], some ⟨["c"], [[0]]⟩, true, none, Status.completed, 100⟩
      "hi" "P" (fun _ => "g")).2 (by decide) (by decide)
      ⟨["c"], [[0]]⟩ rfl (by decide) (by decide)⟩

end PortfolioRAG
